import Mathlib

/-!
Shallow embedding of the core of the `rdapclient` Go package (datum-labs/rdap):
the response cache (`cache_response.go`), the generic TTL-LRU cache, the
header-driven expiry and retry policies, the `getJSON` fetch loop
(`http_request.go`), the RDAP object decoder (`ParseObject`), and the IP
bootstrap resolver (`resolveBaseFromBootstrapIP`).

Conventions of the embedding:
* `time.Time` instants and `time.Duration` values are both modelled as `Int`
  nanoseconds; the Go zero time is `0`, so `t.IsZero()` is `t = 0`,
  `t.Before(u)` is `t < u`, and `now().Add(d)` is `now + d`.
* Go byte slices are `List Nat`; a `nil` slice and an empty slice are both
  `[]` (the cache only ever stores `nil` for an empty body, because
  `append([]byte(nil), body...)` yields `nil` for empty `body`).
* The `container/list` + map pair of each cache is modelled as a single
  `List` in MRU-to-LRU order; the map is the derived first-occurrence index.
* Header values are carried in a `Headers` structure; `h.Get("X")` for an
  absent header is the empty string, exactly as in `net/http`.
* Go's time parsers (`time.Parse(http.TimeFormat, ·)`, `time.Parse(time.RFC1123, ·)`,
  `time.ParseDuration`) are kept abstract as the fields of a `GoTimeParse`
  environment: the claims under verification quantify over their behaviour
  and only inspect success/failure and the parsed instant.
* ASCII-only string manipulation (`strings.ToLower`, `Contains`, `Split`,
  `TrimSpace`, `HasPrefix`, `TrimPrefix`, `strconv.Atoi`) is implemented
  concretely below on `List Char`.
-/

namespace Rdap

/-! ## Go string helpers (ASCII fragment of the `strings`/`strconv` functions) -/

/-- `strings.ToLower` restricted to ASCII (the inputs the claims exercise). -/
def lowerStr (s : String) : String := String.mk (s.data.map Char.toLower)

/-- Left-to-right test that `pat` is a prefix of `s` (char lists). -/
def listStartsWith : List Char → List Char → Bool
  | _, [] => true
  | [], _ :: _ => false
  | c :: s, p :: pat => c == p && listStartsWith s pat

/-- Substring containment on char lists, `strings.Contains` semantics. -/
def listContainsSub (s pat : List Char) : Bool :=
  if listStartsWith s pat then true
  else match s with
    | [] => false
    | _ :: t => listContainsSub t pat

/-- `strings.Contains s pat`. -/
def strContains (s pat : String) : Bool := listContainsSub s.data pat.data

/-- `strings.HasPrefix s pat`. -/
def strStartsWith (s pat : String) : Bool := listStartsWith s.data pat.data

/-- `strings.HasSuffix s pat`. -/
def strEndsWith (s pat : String) : Bool := listStartsWith s.data.reverse pat.data.reverse

/-- `strings.TrimPrefix s pat`: drop `pat` if it is a prefix, else `s`. -/
def strDropPre (s pat : String) : String :=
  if strStartsWith s pat then String.mk (s.data.drop pat.data.length) else s

/-- ASCII whitespace recognised by `strings.TrimSpace`. -/
def isSpaceChar (c : Char) : Bool :=
  c == ' ' || c == '\t' || c == '\n' || c == '\r' || c == '\x0b' || c == '\x0c'

/-- `strings.TrimSpace` (ASCII fragment). -/
def goTrimSpace (s : String) : String :=
  String.mk (((s.data.dropWhile isSpaceChar).reverse.dropWhile isSpaceChar).reverse)

/-- Split a char list at every occurrence of `sep`; `strings.Split` on a
one-character separator (the empty string splits to `[""]`). -/
def splitCharList (sep : Char) : List Char → List (List Char)
  | [] => [[]]
  | c :: t =>
    match splitCharList sep t with
    | [] => if c == sep then [[], []] else [[c]]
    | h :: r => if c == sep then [] :: h :: r else (c :: h) :: r

/-- `strings.Split s ","` (the only separator the source uses). -/
def splitComma (s : String) : List String := (splitCharList ',' s.data).map String.mk

/-- Digits of a non-empty all-digit char list, as a natural number. -/
def digitsVal : List Char → Nat → Option Nat
  | [], acc => some acc
  | c :: t, acc => if c.isDigit then digitsVal t (acc * 10 + (c.toNat - 48)) else none

/-- Digit run that must be non-empty (as in `strconv.Atoi` after the sign). -/
def digitsValNE (l : List Char) : Option Nat :=
  match l with
  | [] => none
  | _ => digitsVal l 0

/-- The `int64` range check `strconv.Atoi` applies on 64-bit targets. -/
def int64Ok (v : Int) : Option Int :=
  if -(2 ^ 63) ≤ v ∧ v ≤ 2 ^ 63 - 1 then some v else none

/-- `strconv.Atoi`: optional sign, non-empty digit run, whole string, range check. -/
def goAtoi (s : String) : Option Int :=
  match s.data with
  | [] => none
  | '+' :: rest => (digitsValNE rest).bind (fun n => int64Ok (Int.ofNat n))
  | '-' :: rest => (digitsValNE rest).bind (fun n => int64Ok (-(Int.ofNat n)))
  | l => (digitsValNE l).bind (fun n => int64Ok (Int.ofNat n))

/-- `strings.TrimRight s "/"`: drop every trailing slash. -/
def trimTrailingSlashes (s : String) : String :=
  String.mk ((s.data.reverse.dropWhile (· == '/')).reverse)

/-! ## Time, headers and the abstract Go time parsers -/

/-- Nanoseconds in a second: `time.Second`. -/
def nsPerSec : Int := 1000000000

/-- The response headers the engine reads, as returned by `http.Header.Get`
(absent header = empty string). -/
structure Headers where
  etag : String := ""
  lastModified : String := ""
  cacheControl : String := ""
  expires : String := ""
  retryAfter : String := ""
deriving DecidableEq, Repr

/-- The Go time parsers used by the source, kept abstract: `httpDate` is
`time.Parse(http.TimeFormat, ·)`, `rfc1123` is `time.Parse(time.RFC1123, ·)`,
`durationNs` is `time.ParseDuration` (result in nanoseconds). `none` models a
parse error. -/
structure GoTimeParse where
  httpDate : String → Option Int
  rfc1123 : String → Option Int
  durationNs : String → Option Int

/-- A `GoTimeParse` in which every parse fails (used to instantiate witnesses). -/
def tpNone : GoTimeParse := ⟨fun _ => none, fun _ => none, fun _ => none⟩

/-- The `max-age` scan inside `expiryFromHeaders`: over the comma-split parts
of `Cache-Control`, trim each part, match `max-age=` case-insensitively, but
trim the prefix case-sensitively before `strconv.Atoi`; the first part that
parses with `n ≥ 0` wins. -/
def maxAgeScan : List String → Option Int
  | [] => none
  | p :: rest =>
    let q := goTrimSpace p
    if strStartsWith (lowerStr q) "max-age=" then
      match goAtoi (strDropPre q "max-age=") with
      | some n => if 0 ≤ n then some n else maxAgeScan rest
      | none => maxAgeScan rest
    else maxAgeScan rest

/-- The tail of `expiryFromHeaders`: the `Expires` header check followed by
the default-TTL fallback (reached when `Cache-Control` decides nothing). -/
def expiryExpiresPart (tp : GoTimeParse) (h : Headers) (defTTL now : Int) : Int :=
  if h.expires ≠ "" then
    match tp.httpDate h.expires with
    | some t => if 0 < t - now then t - now else defTTL
    | none => defTTL
  else defTTL

/-- `expiryFromHeaders(h, defTTL, now)` from `cache_response.go`. -/
def expiryFromHeaders (tp : GoTimeParse) (h : Headers) (defTTL now : Int) : Int :=
  if h.cacheControl ≠ "" then
    if strContains (lowerStr h.cacheControl) "no-store" ||
        strContains (lowerStr h.cacheControl) "no-cache" then 0
    else
      match maxAgeScan (splitComma h.cacheControl) with
      | some n => n * nsPerSec
      | none => expiryExpiresPart tp h defTTL now
  else expiryExpiresPart tp h defTTL now

/-- The stored cache metadata `cachedMeta`. -/
structure CachedMeta where
  etag : String := ""
  lastModified : Int := 0
  expiresAt : Int := 0
  negUntil : Int := 0
deriving DecidableEq, Repr

/-- `makeMeta(h, defTTL, now)` from `cache_response.go`. -/
def makeMeta (tp : GoTimeParse) (h : Headers) (defTTL now : Int) : CachedMeta :=
  { etag := h.etag
    lastModified :=
      if h.lastModified ≠ "" then
        match tp.httpDate h.lastModified with
        | some t => t
        | none => 0
      else 0
    expiresAt := now + expiryFromHeaders tp h defTTL now
    negUntil := 0 }

/-- `mergeMeta(prev, h, defTTL, now)` from `cache_response.go`: start from
`prev`, overwrite the validators when the new header values are usable,
recompute `expiresAt`; `negUntil` is not touched. -/
def mergeMeta (tp : GoTimeParse) (prev : CachedMeta) (h : Headers) (defTTL now : Int) :
    CachedMeta :=
  { etag := if h.etag ≠ "" then h.etag else prev.etag
    lastModified :=
      if h.lastModified ≠ "" then
        match tp.httpDate h.lastModified with
        | some t => t
        | none => prev.lastModified
      else prev.lastModified
    expiresAt := now + expiryFromHeaders tp h defTTL now
    negUntil := prev.negUntil }

/-! ## Response cache (`respCache` in `cache_response.go`) -/

/-- A `cachedResponse` list node. -/
structure CachedResponse where
  url : String
  body : List Nat := []
  meta : CachedMeta := {}
deriving DecidableEq, Repr

/-- The cache state: `entries` is the `container/list` in MRU-to-LRU order,
the URL-keyed map being its first-occurrence index; `cap` and `defTTL` are the
corresponding `respCache` fields. `now` is passed to each operation. -/
structure RespCache where
  cap : Nat
  entries : List CachedResponse := []
  defTTL : Int
deriving DecidableEq, Repr

/-- First element satisfying `p` removed (the `list.Remove` of the element the
map points at). -/
def removeFirstBy (p : α → Bool) : List α → List α
  | [] => []
  | x :: t => if p x then t else x :: removeFirstBy p t

/-- One-step-per-unit-of-fuel version of the eviction loop; the loop body
removes the back element while the list is over capacity.  `l.length` units of
fuel always suffice, so `evictOverCap` below is the exact loop. -/
def evictSteps (cap : Nat) : Nat → List α → List α
  | 0, l => l
  | n + 1, l => if cap < l.length then evictSteps cap n l.dropLast else l

/-- The eviction loop `for ll.Len() > cap { remove back }`. -/
def evictOverCap (cap : Nat) (l : List α) : List α :=
  evictSteps cap l.length l

/-- Map lookup `tab[u]`: the first entry with this URL. -/
def findEntry (st : RespCache) (u : String) : Option CachedResponse :=
  st.entries.find? (fun e => e.url == u)

/-- `respCache.Get`: returns the body on a fresh positive hit and moves the
entry to MRU; a negative-active, stale, or bodyless entry is a miss that
leaves the list untouched. -/
def rcGet (st : RespCache) (u : String) (now : Int) : Option (List Nat) × RespCache :=
  match findEntry st u with
  | some it =>
    if it.meta.negUntil ≠ 0 ∧ now < it.meta.negUntil then (none, st)
    else if now < it.meta.expiresAt ∧ it.body ≠ [] then
      (some it.body, { st with entries := it :: removeFirstBy (fun e => e.url == u) st.entries })
    else (none, st)
  | none => (none, st)

/-- `respCache.FreshBody`: the stored body regardless of expiry (empty list
for an absent entry, matching the `nil` Go returns); no MRU move. -/
def freshBody (st : RespCache) (u : String) : List Nat :=
  match findEntry st u with
  | some it => it.body
  | none => []

/-- `respCache.Meta`. -/
def rcMeta (st : RespCache) (u : String) : Option CachedMeta :=
  (findEntry st u).map (·.meta)

/-- `respCache.UpdateFreshness`: on an existing entry, merge the metadata,
clear the negative state, move to MRU; absent URL is a no-op. -/
def updateFreshness (tp : GoTimeParse) (st : RespCache) (u : String) (h : Headers)
    (now : Int) : RespCache :=
  match findEntry st u with
  | some it =>
    { st with entries :=
        { it with meta := { mergeMeta tp it.meta h st.defTTL now with negUntil := 0 } } ::
          removeFirstBy (fun e => e.url == u) st.entries }
  | none => st

/-- `respCache.Store`: write body plus derived metadata; replace in place (and
move to MRU) when present, else push front and evict past capacity. -/
def store (tp : GoTimeParse) (st : RespCache) (u : String) (b : List Nat) (h : Headers)
    (now : Int) : RespCache :=
  let resp : CachedResponse := ⟨u, b, makeMeta tp h st.defTTL now⟩
  match findEntry st u with
  | some _ =>
    { st with entries := resp :: removeFirstBy (fun e => e.url == u) st.entries }
  | none => { st with entries := evictOverCap st.cap (resp :: st.entries) }

/-- `respCache.StoreNegative`: set `negUntil := now + d` keeping any body and
move to MRU; an absent URL gets a fresh bodyless entry pushed to front with no
eviction. -/
def storeNegative (st : RespCache) (u : String) (d now : Int) : RespCache :=
  match findEntry st u with
  | some it =>
    { st with entries :=
        { it with meta := { it.meta with negUntil := now + d } } ::
          removeFirstBy (fun e => e.url == u) st.entries }
  | none => { st with entries := ⟨u, [], { negUntil := now + d }⟩ :: st.entries }

/-- `respCache.StoreMeta`: merge metadata into an existing entry (keeping its
body and `negUntil`) and move to MRU; an absent URL gets a bodyless entry with
fresh metadata pushed to front with no eviction. -/
def storeMeta (tp : GoTimeParse) (st : RespCache) (u : String) (h : Headers)
    (now : Int) : RespCache :=
  match findEntry st u with
  | some it =>
    { st with entries :=
        { it with meta := mergeMeta tp it.meta h st.defTTL now } ::
          removeFirstBy (fun e => e.url == u) st.entries }
  | none => { st with entries := ⟨u, [], makeMeta tp h st.defTTL now⟩ :: st.entries }

/-- `respCache.Resize`: change the capacity and evict immediately while over it. -/
def rcResize (st : RespCache) (n : Nat) : RespCache :=
  { st with cap := n, entries := evictOverCap n st.entries }

/-! ## Generic TTL-LRU cache (`ttlCache[T]`) -/

/-- A `ttlItem[T]`. -/
structure TtlItem (T : Type) where
  key : String
  val : T
  expires : Int
deriving DecidableEq, Repr

/-- The `ttlCache[T]` state; `now` is passed per operation. -/
structure TtlCache (T : Type) where
  cap : Nat
  ttl : Int
  entries : List (TtlItem T) := []
deriving DecidableEq, Repr

/-- Map lookup `tab[k]`. -/
def findKey (st : TtlCache T) (k : String) : Option (TtlItem T) :=
  st.entries.find? (fun it => it.key == k)

/-- `ttlCache.Get`: an unexpired entry is a hit moved to MRU; a found expired
entry is deleted and reported as a miss. -/
def tcGet (st : TtlCache T) (k : String) (now : Int) : Option T × TtlCache T :=
  match findKey st k with
  | some it =>
    if now < it.expires then
      (some it.val, { st with entries := it :: removeFirstBy (fun e => e.key == k) st.entries })
    else (none, { st with entries := removeFirstBy (fun e => e.key == k) st.entries })
  | none => (none, st)

/-- `ttlCache.Set`: an existing key is replaced in place with a refreshed
expiry and moved to MRU (no eviction); a new key is pushed to front and the
cache evicted down to capacity. -/
def tcSet (st : TtlCache T) (k : String) (v : T) (now : Int) : TtlCache T :=
  match findKey st k with
  | some _ =>
    { st with entries := ⟨k, v, now + st.ttl⟩ :: removeFirstBy (fun e => e.key == k) st.entries }
  | none => { st with entries := evictOverCap st.cap (⟨k, v, now + st.ttl⟩ :: st.entries) }

/-- `ttlCache.Resize`: capacity only, no eviction. -/
def tcResize (st : TtlCache T) (n : Nat) : TtlCache T := { st with cap := n }

/-! ## `retryAfter` (helpers file) -/

/-- Ten seconds, the clamping window bound. -/
def tenSeconds : Int := 10 * nsPerSec

/-- `retryAfter(h, fallback)`: try the header as `ParseDuration(TrimSpace(v)+"s")`
honoring results strictly inside `(0, 10s)`, then as an RFC1123 date whose
`time.Until` delta is strictly inside `(0, 10s)`, else the fallback. -/
def retryAfter (tp : GoTimeParse) (h : Headers) (now fallback : Int) : Int :=
  let v := h.retryAfter
  if v ≠ "" then
    let fromDate : Int :=
      match tp.rfc1123 v with
      | some t => if 0 < t - now ∧ t - now < tenSeconds then t - now else fallback
      | none => fallback
    match tp.durationNs (goTrimSpace v ++ "s") with
    | some sec => if 0 < sec ∧ sec < tenSeconds then sec else fromDate
    | none => fromDate
  else fallback

/-! ## HTTP fetch engine (`getJSON` in `http_request.go`)

The engine is driven by a script of HTTP outcomes, one per loop iteration:
`netErr r` is a transport error (`r` = `isRetryableNetErr`), `resp s h b` a
response with status `s`, headers `h` and body bytes `b`.  JSON decoding
(`json.Unmarshal` into a map) is abstracted by the `decOK` predicate of the
configuration.  The run returns the result, the final cache state, and a
trace recording for every issued request its 1-based `attempt` number and
the `useValidators` flag under which it was built.  Time does not advance
during a run (`cfg.now` plays the role of `c.now()` / `time.Now`).  Backoff
sleeps and context cancellation have no observable effect on this state and
are not modelled. -/

/-- One scripted HTTP outcome. -/
inductive HEvent where
  | netErr (retryable : Bool)
  | resp (status : Nat) (hdr : Headers) (body : List Nat)
deriving Repr

/-- The client configuration `getJSON` reads. -/
structure FetchCfg where
  maxRetries : Nat
  decOK : List Nat → Bool
  tp : GoTimeParse
  now : Int

/-- Outcome of a `getJSON` run. -/
inductive FetchResult where
  | okBody (b : List Nat)
  | errNet
  | errStatus (code : Nat)
  | errDecode
  | err304NoBody
  | scriptEnd
deriving DecidableEq, Repr

/-- Statuses of the rate-limit / server-error retry case. -/
def isRetryStatus (s : Nat) : Bool :=
  s == 429 || s == 503 || s == 502 || s == 504 || s == 500

/-- The `for attempt := 1; ; attempt++` loop of `getJSON`.  Note that every
`continue` in the Go loop runs the `attempt++` post-statement, including the
unconditional retry of the 304-without-body path. -/
def getJSONLoop (cfg : FetchCfg) (u : String) :
    RespCache → Nat → Bool → Bool → List HEvent →
      FetchResult × RespCache × List (Nat × Bool)
  | st, _, _, _, [] => (.scriptEnd, st, [])
  | st, attempt, useVal, didUncond, e :: rest =>
    match e with
    | .netErr r =>
      if decide (attempt ≤ cfg.maxRetries) && r then
        let (res, st', tr) := getJSONLoop cfg u st (attempt + 1) useVal didUncond rest
        (res, st', (attempt, useVal) :: tr)
      else (.errNet, st, [(attempt, useVal)])
    | .resp s hdr b =>
      if s == 304 then
        let fb := freshBody st u
        if !fb.isEmpty && cfg.decOK fb then
          (.okBody fb, updateFreshness cfg.tp st u hdr cfg.now, [(attempt, useVal)])
        else if !didUncond then
          let (res, st', tr) := getJSONLoop cfg u st (attempt + 1) false true rest
          (res, st', (attempt, useVal) :: tr)
        else (.err304NoBody, st, [(attempt, useVal)])
      else if s == 200 then
        if cfg.decOK b then (.okBody b, store cfg.tp st u b hdr cfg.now, [(attempt, useVal)])
        else (.errDecode, st, [(attempt, useVal)])
      else if isRetryStatus s then
        if decide (attempt ≤ cfg.maxRetries) then
          let (res, st', tr) := getJSONLoop cfg u st (attempt + 1) useVal didUncond rest
          (res, st', (attempt, useVal) :: tr)
        else (.errStatus s, st, [(attempt, useVal)])
      else if s == 404 then
        (.errStatus 404, storeNegative st u (300 * nsPerSec) cfg.now, [(attempt, useVal)])
      else (.errStatus s, st, [(attempt, useVal)])

/-- `getJSON`: strong-cache preamble (a fresh hit that decodes returns with no
network traffic; a fresh hit that fails to decode falls into the loop with the
MRU move kept), then the attempt loop starting at
`attempt = 1, useValidators = true, didUnconditional = false`. -/
def getJSON (cfg : FetchCfg) (u : String) (st : RespCache) (events : List HEvent) :
    FetchResult × RespCache × List (Nat × Bool) :=
  match rcGet st u cfg.now with
  | (some b, st') =>
    if cfg.decOK b then (.okBody b, st', [])
    else getJSONLoop cfg u st' 1 true false events
  | (none, st') => getJSONLoop cfg u st' 1 true false events

/-! ## RDAP object decoder (`ParseObject`) -/

/-- A decoded JSON value as far as the dispatcher inspects it: the
`m["objectClassName"].(string)` type assertion only distinguishes strings. -/
inductive RVal where
  | str (s : String)
  | other
deriving DecidableEq, Repr

/-- A decoded `map[string]any` (keys unique by construction in Go). -/
def JsonMap := List (String × RVal)

/-- The five RFC 9083 object classes. -/
inductive ObjClass where
  | entity
  | domain
  | nameserver
  | ipNetwork
  | autnum
deriving DecidableEq, Repr

/-- The canonical `objectClassName` of each class. -/
def canonicalName : ObjClass → String
  | .entity => "entity"
  | .domain => "domain"
  | .nameserver => "nameserver"
  | .ipNetwork => "ip network"
  | .autnum => "autnum"

/-- The `switch lower(ocn)` dispatch table. -/
def classOf (s : String) : Option ObjClass :=
  if s == "entity" then some .entity
  else if s == "domain" then some .domain
  else if s == "nameserver" then some .nameserver
  else if s == "ip network" then some .ipNetwork
  else if s == "autnum" then some .autnum
  else none

/-- The `ocn, _ := m["objectClassName"].(string)` read: empty string unless the
key holds a string. -/
def ocnOf (m : JsonMap) : String :=
  match m.lookup "objectClassName" with
  | some (.str s) => s
  | _ => ""

/-- Result of `ParseObject`. -/
inductive ParseResult where
  | errNil
  | errUnknown (raw : String)
  | errDecode (cls : ObjClass)
  | errValidate (cls : ObjClass)
  | ok (cls : ObjClass) (ocn : String)
deriving DecidableEq, Repr

/-- `ParseObject(m)`.  A Go `nil` map is `none`; a non-nil (possibly empty)
map is `some mm`.  The marshal/unmarshal round trip of `decodeInto` is
abstracted by `decFail` (`true` = `decodeInto` returns an error); on a
successful decode, the concrete object's `ObjectClassName` field equals the
string stored under `"objectClassName"` (the round trip preserves it), which
is what each `Validate` method compares against its canonical name. -/
def ParseObject (decFail : ObjClass → JsonMap → Bool) (m : Option JsonMap) : ParseResult :=
  match m with
  | none => .errNil
  | some mm =>
    let ocn := ocnOf mm
    match classOf (lowerStr ocn) with
    | none => .errUnknown ocn
    | some cls =>
      if decFail cls mm then .errDecode cls
      else if lowerStr ocn == canonicalName cls then .ok cls ocn
      else .errValidate cls

/-! ## IP bootstrap resolver (`resolveBaseFromBootstrapIP`) -/

/-- A parsed `netip.Addr`: the family flag plus the address value as a natural
number (below `2^32` resp. `2^128`). -/
structure Addr where
  is6 : Bool
  bits : Nat
deriving DecidableEq, Repr

/-- A parsed `netip.Prefix`.  `netip.ParsePrefix` does NOT zero the bits
below the prefix length: `addr` is the address exactly as written. -/
structure Pfx where
  addr : Addr
  len : Nat
deriving DecidableEq, Repr

/-- Bit width of the family. -/
def addrWidth (is6 : Bool) : Nat := if is6 then 128 else 32

/-- `netip.Prefix.Contains`: same family and equal top `len` bits. -/
def pfxContains (p : Pfx) (a : Addr) : Bool :=
  p.addr.is6 == a.is6 &&
    (a.bits >>> (addrWidth a.is6 - p.len) == p.addr.bits >>> (addrWidth a.is6 - p.len))

/-- One `services` entry after `toStringSlice`: the CIDR keys (`none` for a
string `netip.ParsePrefix` rejects, which the loop skips) and the URL list. -/
structure Svc where
  cidrs : List (Option Pfx)
  urls : List String
deriving DecidableEq, Repr

/-- The inner CIDR loop: update `(bestMask, bestBase)` on a family-matching
containment whose prefix length strictly beats the best so far. -/
def scanCidrs (a : Addr) (base : String) :
    List (Option Pfx) → Int × String → Int × String
  | [], best => best
  | none :: rest, best => scanCidrs a base rest best
  | some p :: rest, best =>
    if p.addr.is6 == a.is6 && pfxContains p a then
      if (p.len : Int) > best.1 then scanCidrs a base rest (p.len, base)
      else scanCidrs a base rest best
    else scanCidrs a base rest best

/-- The outer services loop: entries without URLs are skipped; the base is the
first URL with trailing slashes stripped. -/
def scanServices (a : Addr) : List Svc → Int × String → Int × String
  | [], best => best
  | svc :: rest, best =>
    match svc.urls with
    | [] => scanServices a rest best
    | u0 :: _ => scanServices a rest (scanCidrs a (trimTrailingSlashes u0) svc.cidrs best)

/-- The resolver input, already past `netip` parsing: a plain address or a
CIDR (the parse-failure early return is not modelled). -/
inductive IpInput where
  | addr (a : Addr)
  | cidr (p : Pfx)
deriving DecidableEq, Repr

/-- The address the resolver queries with: for a CIDR this is `p.Addr()`,
i.e. the prefix's address as written (host bits preserved). -/
def queryAddr : IpInput → Addr
  | .addr a => a
  | .cidr p => p.addr

/-- The family-based bootstrap file switch. -/
def selectIpFile (u : String) (is6 : Bool) : String :=
  if is6 && strEndsWith u "/ipv4.json" then "https://data.iana.org/rdap/ipv6.json"
  else if !is6 && strEndsWith u "/ipv6.json" then "https://data.iana.org/rdap/ipv4.json"
  else u

/-- `resolveBaseFromBootstrapIP`.  `addrStr` abstracts `netip.Addr.String`
(the textual rendering used in the cache key), `fetch` abstracts
`fetchBootstrapGeneric` (`none` = error, which falls back to `https://rdap.org`;
its `StoreMeta` side effect on the response cache is outside this claim's
frame and not modelled).  Returns the base and the updated TLD/base cache. -/
def resolveBaseFromBootstrapIP (addrStr : Addr → String) (cache : TtlCache String)
    (input : IpInput) (ipBootstrapURL : String) (fetch : String → Option (List Svc))
    (now : Int) : String × TtlCache String :=
  let a := queryAddr input
  let url := selectIpFile ipBootstrapURL a.is6
  let key := "ip:" ++ addrStr a
  match tcGet cache key now with
  | (some base, c') => (base, c')
  | (none, c') =>
    match fetch url with
    | none => ("https://rdap.org", c')
    | some svcs =>
      let best := scanServices a svcs (-1, "")
      if best.2 ≠ "" then (best.2, tcSet c' key best.2 now)
      else ("https://rdap.org", c')

/-! ## Declarative description of the longest-prefix scan

Used to state what `scanServices` computes: the list of `(prefix length,
trimmed first URL)` pairs of all family-matching containing CIDRs, in scan
order, and the first pair attaining the maximal length. -/

/-- Matches contributed by one CIDR key list for a fixed base. -/
def cidrMatches (a : Addr) (base : String) (cidrs : List (Option Pfx)) :
    List (Nat × String) :=
  cidrs.filterMap (fun oc =>
    match oc with
    | none => none
    | some p =>
      if p.addr.is6 == a.is6 && pfxContains p a then some (p.len, base) else none)

/-- Matches contributed by one service entry. -/
def svcMatches (a : Addr) (svc : Svc) : List (Nat × String) :=
  match svc.urls with
  | [] => []
  | u0 :: _ => cidrMatches a (trimTrailingSlashes u0) svc.cidrs

/-- All `(prefix length, base)` matches of the services list, in scan order. -/
def allMatches (a : Addr) (svcs : List Svc) : List (Nat × String) :=
  svcs.flatMap (svcMatches a)

/-- Maximum prefix length of a match list, as an `Int` (`-1` when empty,
mirroring the initial `bestMask`). -/
def listMaxI : List (Nat × String) → Int
  | [] => -1
  | x :: t => max (x.1 : Int) (listMaxI t)

/-- Reference fold of the scan: keep the first strict improvement. -/
def firstStrictMax : List (Nat × String) → Int × String → Int × String
  | [], best => best
  | x :: t, best =>
    if (x.1 : Int) > best.1 then firstStrictMax t (x.1, x.2) else firstStrictMax t best

/-- The base of the first match attaining the maximal prefix length. -/
def bestMatchBase (a : Addr) (svcs : List Svc) : String :=
  (((allMatches a svcs).find?
      (fun x => (x.1 : Int) == listMaxI (allMatches a svcs))).getD (0, "")).2

/-- Dotted-quad rendering of an IPv4 value, used to instantiate the abstract
`netip.Addr.String` on the concrete v4 examples. -/
def v4DottedQuad (n : Nat) : String :=
  toString (n / 16777216 % 256) ++ "." ++ toString (n / 65536 % 256) ++ "." ++
    toString (n / 256 % 256) ++ "." ++ toString (n % 256)

/-- Concrete `addrStr` for the v4 examples. -/
def exAddrStr (a : Addr) : String := v4DottedQuad a.bits

/-- The bootstrap services of the spec's longest-prefix example:
`[10.0.0.0/8 -> A]` and `[10.1.0.0/16 -> B]`. -/
def exIpServices : List Svc :=
  [⟨[some ⟨⟨false, 0x0A000000⟩, 8⟩], ["A"]⟩, ⟨[some ⟨⟨false, 0x0A010000⟩, 16⟩], ["B"]⟩]

/-- A fetch that always returns the example services. -/
def exIpFetch : String → Option (List Svc) := fun _ => some exIpServices

/-- An empty TLD/base cache with the client's default parameters. -/
def exTldCache : TtlCache String := { cap := 64, ttl := 21600 * nsPerSec, entries := [] }

/-! ## Supporting lemmas -/

theorem evictSteps_of_le (cap fuel : Nat) (l : List α) (h : l.length ≤ cap) :
    evictSteps cap fuel l = l := by
  cases fuel with
  | zero => rfl
  | succ n => simp [evictSteps, Nat.not_lt.mpr h]

theorem evictOverCap_of_le (cap : Nat) (l : List α) (h : l.length ≤ cap) :
    evictOverCap cap l = l :=
  evictSteps_of_le cap l.length l h

theorem evictOverCap_len_succ (cap : Nat) (l : List α) (h : l.length = cap + 1) :
    evictOverCap cap l = l.dropLast := by
  have hlt : cap < l.length := by omega
  have hdl : l.dropLast.length ≤ cap := by
    simp only [List.length_dropLast]; omega
  unfold evictOverCap
  rw [h]
  simp only [evictSteps, if_pos hlt]
  exact evictSteps_of_le cap cap l.dropLast hdl

theorem evictSteps_length_le (cap : Nat) :
    ∀ (fuel : Nat) (l : List α), (evictSteps cap fuel l).length ≤ max cap (l.length - fuel) := by
  intro fuel
  induction fuel with
  | zero => intro l; simpa [evictSteps] using Nat.le_max_right cap l.length
  | succ n ih =>
    intro l
    simp only [evictSteps]
    split_ifs with hc
    · refine le_trans (ih l.dropLast) (le_of_eq ?_)
      simp only [List.length_dropLast]
      congr 1
      omega
    · exact le_trans (Nat.le_of_not_lt hc) (Nat.le_max_left _ _)

theorem evictOverCap_length_le (cap : Nat) (l : List α) :
    (evictOverCap cap l).length ≤ cap := by
  have := evictSteps_length_le cap l.length l
  simpa [evictOverCap] using this

theorem rcGet_of_freshBody_empty (st : RespCache) (u : String) (now : Int)
    (h : freshBody st u = []) : rcGet st u now = (none, st) := by
  unfold rcGet
  unfold freshBody at h
  cases hf : findEntry st u with
  | none => rfl
  | some it =>
    simp only [hf] at h ⊢
    split_ifs with h1 h2
    · rfl
    · exact absurd h2.2 (by simp [h])
    · rfl

theorem find?_cons_eq_ite (p : α → Bool) (a : α) (l : List α) :
    (a :: l).find? p = if p a then some a else l.find? p := by
  cases h : p a <;> simp [List.find?, h]

theorem scanCidrs_eq_fsm (a : Addr) (base : String) :
    ∀ (cidrs : List (Option Pfx)) (best : Int × String),
      scanCidrs a base cidrs best = firstStrictMax (cidrMatches a base cidrs) best := by
  intro cidrs
  induction cidrs with
  | nil => intro best; rfl
  | cons oc rest ih =>
    intro best
    cases oc with
    | none => simpa [scanCidrs, cidrMatches] using ih best
    | some p =>
      by_cases hm : p.addr.is6 = a.is6 ∧ pfxContains p a = true
      · by_cases hgt : (p.len : Int) > best.1
        · simp [scanCidrs, cidrMatches, hm, hgt, firstStrictMax, ih]
        · simp [scanCidrs, cidrMatches, hm, hgt, firstStrictMax, ih]
      · simp [scanCidrs, cidrMatches, hm, ih]

theorem fsm_append :
    ∀ (l1 l2 : List (Nat × String)) (best : Int × String),
      firstStrictMax (l1 ++ l2) best = firstStrictMax l2 (firstStrictMax l1 best) := by
  intro l1
  induction l1 with
  | nil => intro l2 best; rfl
  | cons x t ih =>
    intro l2 best
    simp only [List.cons_append, firstStrictMax]
    by_cases hgt : (x.1 : Int) > best.1
    · simp [hgt, ih]
    · simp [hgt, ih]

theorem scanServices_eq_fsm (a : Addr) :
    ∀ (svcs : List Svc) (best : Int × String),
      scanServices a svcs best = firstStrictMax (allMatches a svcs) best := by
  intro svcs
  induction svcs with
  | nil => intro best; rfl
  | cons svc rest ih =>
    intro best
    cases hu : svc.urls with
    | nil =>
      simp only [scanServices, hu, allMatches, List.flatMap_cons, svcMatches]
      simpa [allMatches] using ih best
    | cons u0 us =>
      simp only [scanServices, hu, allMatches, List.flatMap_cons, svcMatches, fsm_append]
      rw [ih (scanCidrs a (trimTrailingSlashes u0) svc.cidrs best),
        scanCidrs_eq_fsm a (trimTrailingSlashes u0) svc.cidrs best]
      rfl

theorem listMaxI_nonneg (x : Nat × String) (t : List (Nat × String)) :
    0 ≤ listMaxI (x :: t) :=
  le_trans (Int.natCast_nonneg x.1) (le_max_left _ _)

theorem listMaxI_attained :
    ∀ (l : List (Nat × String)), l ≠ [] → ∃ y ∈ l, (y.1 : Int) = listMaxI l := by
  intro l
  induction l with
  | nil => intro h; exact absurd rfl h
  | cons x t ih =>
    intro _
    rcases le_or_lt (listMaxI t) (x.1 : Int) with hle | hlt
    · exact ⟨x, List.mem_cons_self x t, (max_eq_left hle).symm⟩
    · have ht : t ≠ [] := by
        intro he
        rw [he] at hlt
        have hx := Int.natCast_nonneg x.1
        simp only [listMaxI] at hlt
        omega
      obtain ⟨y, hy, hmax⟩ := ih ht
      exact ⟨y, List.mem_cons_of_mem x hy,
        hmax.trans (max_eq_right (le_of_lt hlt)).symm⟩

theorem fsm_spec :
    ∀ (l : List (Nat × String)) (m : Int) (b : String),
      (listMaxI l ≤ m → firstStrictMax l (m, b) = (m, b)) ∧
      (m < listMaxI l →
        ∀ y, l.find? (fun x => (x.1 : Int) == listMaxI l) = some y →
          firstStrictMax l (m, b) = (listMaxI l, y.2)) := by
  intro l
  induction l with
  | nil =>
    intro m b
    refine ⟨fun _ => rfl, fun _ y hy => ?_⟩
    simp at hy
  | cons x t ih =>
    intro m b
    constructor
    · intro hle
      simp only [listMaxI] at hle
      have hx : (x.1 : Int) ≤ m := le_trans (le_max_left _ _) hle
      have ht : listMaxI t ≤ m := le_trans (le_max_right _ _) hle
      simp only [firstStrictMax]
      rw [if_neg (not_lt.mpr hx)]
      exact (ih m b).1 ht
    · intro hlt y hy
      rw [find?_cons_eq_ite] at hy
      rcases le_or_lt (listMaxI t) (x.1 : Int) with hMt | hMt
      · have hmax : listMaxI (x :: t) = (x.1 : Int) := max_eq_left hMt
        rw [hmax] at hy
        rw [if_pos (by simp)] at hy
        cases hy
        have hx1 : m < (x.1 : Int) := by rw [hmax] at hlt; exact hlt
        simp only [firstStrictMax]
        rw [if_pos hx1, hmax]
        exact (ih (x.1 : Int) x.2).1 hMt
      · have hmax : listMaxI (x :: t) = listMaxI t := max_eq_right (le_of_lt hMt)
        rw [hmax] at hy
        rw [if_neg (by simp; omega)] at hy
        simp only [firstStrictMax]
        rw [hmax]
        by_cases hxm : (x.1 : Int) > m
        · rw [if_pos hxm]
          exact (ih (x.1 : Int) x.2).2 hMt y hy
        · rw [if_neg hxm]
          exact (ih m b).2 (by rw [hmax] at hlt; exact hlt) y hy

theorem classOf_canonical (s : String) (cls : ObjClass) (h : classOf s = some cls) :
    canonicalName cls = s := by
  unfold classOf at h
  split_ifs at h with h1 h2 h3 h4 h5 <;>
    first
      | (cases h; simp_all [canonicalName])
      | simp at h

theorem rcGet_miss_eq (st : RespCache) (u : String) (now : Int)
    (h : (rcGet st u now).1 = none) : rcGet st u now = (none, st) := by
  unfold rcGet at h ⊢
  cases hf : findEntry st u with
  | none => rfl
  | some it =>
    simp only [hf] at h ⊢
    split_ifs at h ⊢ with h1 h2
    all_goals first | rfl | simp at h

theorem expiryExpiresPart_future (tp : GoTimeParse) (h : Headers) (defTTL now t : Int)
    (hne : h.expires ≠ "") (hp : tp.httpDate h.expires = some t) (hf : 0 < t - now) :
    expiryExpiresPart tp h defTTL now = t - now := by
  unfold expiryExpiresPart
  rw [if_pos hne]
  simp only [hp]
  rw [if_pos hf]

theorem expiryExpiresPart_default (tp : GoTimeParse) (h : Headers) (defTTL now : Int)
    (hcase : h.expires = "" ∨ tp.httpDate h.expires = none ∨
      ∃ t, tp.httpDate h.expires = some t ∧ t - now ≤ 0) :
    expiryExpiresPart tp h defTTL now = defTTL := by
  unfold expiryExpiresPart
  rcases hcase with he | hn | ⟨t, hp, hle⟩
  · rw [if_neg (by simp [he])]
  · split_ifs with hex
    · simp only [hn]
    · rfl
  · split_ifs with hex
    · simp only [hp]
      rw [if_neg (not_lt.mpr hle)]
    · rfl

theorem expiry_reduces_to_expires (tp : GoTimeParse) (h : Headers) (defTTL now : Int)
    (hblk : (strContains (lowerStr h.cacheControl) "no-store" ||
      strContains (lowerStr h.cacheControl) "no-cache") = false)
    (hma : maxAgeScan (splitComma h.cacheControl) = none) :
    expiryFromHeaders tp h defTTL now = expiryExpiresPart tp h defTTL now := by
  unfold expiryFromHeaders
  by_cases hcc : h.cacheControl = ""
  · rw [if_neg (by simp [hcc])]
  · rw [if_pos hcc, if_neg (by simp [hblk]), hma]

/-! ## Claims -/

/-- Claim C5: response-cache `Get(url)` returns a hit if and only if an entry
for the url exists, the entry is not negative-active (negative-until is zero
or now is at or past it), now is strictly before positive-expiry, and the body
is non-empty; on a hit the entry is moved to the MRU position, and on any miss
the cache state's ordering is unchanged. -/
theorem claim_c5 (st : RespCache) (u : String) (now : Int) :
    ((rcGet st u now).1.isSome = true ↔
      ∃ e, findEntry st u = some e ∧
        (e.meta.negUntil = 0 ∨ e.meta.negUntil ≤ now) ∧
        now < e.meta.expiresAt ∧ e.body ≠ []) ∧
    (∀ e, findEntry st u = some e → (rcGet st u now).1.isSome = true →
      rcGet st u now =
        (some e.body,
          { st with entries := e :: removeFirstBy (fun x => x.url == u) st.entries })) ∧
    ((rcGet st u now).1 = none → (rcGet st u now).2 = st) := by
  refine ⟨⟨?_, ?_⟩, ?_, ?_⟩
  · intro hs
    unfold rcGet at hs
    cases hf : findEntry st u with
    | none => simp only [hf] at hs; simp at hs
    | some it =>
      simp only [hf] at hs
      split_ifs at hs with h1 h2
      · simp at hs
      · refine ⟨it, rfl, ?_, h2.1, h2.2⟩
        rcases not_and_or.mp h1 with hz | hnl
        · exact Or.inl (not_not.mp hz)
        · exact Or.inr (not_lt.mp hnl)
      · simp at hs
  · rintro ⟨e, he, hneg, hexp, hb⟩
    unfold rcGet
    simp only [he]
    rw [if_neg ?hneg, if_pos ⟨hexp, hb⟩]
    · simp
    case hneg =>
      rintro ⟨hnz, hlt⟩
      rcases hneg with hz | hle
      · exact hnz hz
      · exact absurd hlt (not_lt.mpr hle)
  · intro e he hs
    unfold rcGet at hs ⊢
    simp only [he] at hs ⊢
    split_ifs at hs ⊢ with h1 h2
    · simp at hs
    · rfl
    · simp at hs
  · intro hnone
    rw [rcGet_miss_eq st u now hnone]

/-- Witness for C5 at a concrete fresh entry: a hit that returns the body and
keeps the singleton list. -/
theorem claim_c5_witness :
    rcGet { cap := 2, entries := [⟨"u", [1], ⟨"", 0, 10, 0⟩⟩], defTTL := 5 } "u" 3 =
      (some [1], { cap := 2, entries := [⟨"u", [1], ⟨"", 0, 10, 0⟩⟩], defTTL := 5 }) := by
  have h :=
    (claim_c5 { cap := 2, entries := [⟨"u", [1], ⟨"", 0, 10, 0⟩⟩], defTTL := 5 } "u" 3).2.1
      ⟨"u", [1], ⟨"", 0, 10, 0⟩⟩ (by decide) (by decide)
  simpa using h

/-- Claim C9: TTL-LRU `Set` on an existing key updates the value in place,
refreshes the expiry to `now + ttl`, and moves the entry to MRU; consequently
`Set(a,1)@t0; Set(a,2)@t0+0.98*ttl; Get(a)@t0+1.5*ttl` (ttl = 100) returns 2;
and a `Get` whose entry's expiry is not strictly after now is a miss. -/
theorem claim_c9 :
    (∀ (T : Type) (st : TtlCache T) (k : String) (v : T) (now : Int),
      (findKey st k).isSome = true →
        tcSet st k v now =
          { st with entries :=
              ⟨k, v, now + st.ttl⟩ :: removeFirstBy (fun e => e.key == k) st.entries }) ∧
    (tcGet (tcSet (tcSet ({ cap := 4, ttl := 100, entries := [] } : TtlCache Nat) "a" 1 0)
        "a" 2 98) "a" 150).1 = some 2 ∧
    (∀ (T : Type) (st : TtlCache T) (k : String) (now : Int) (it : TtlItem T),
      findKey st k = some it → it.expires ≤ now → (tcGet st k now).1 = none) := by
  refine ⟨?_, by decide, ?_⟩
  · intro T st k v now hk
    cases hfk : findKey st k with
    | none => rw [hfk] at hk; simp at hk
    | some it => simp [tcSet, hfk]
  · intro T st k now it hfk hle
    unfold tcGet
    simp only [hfk]
    rw [if_neg (not_lt.mpr hle)]

/-- Witness for C9's quantified parts at concrete inputs: an in-place update
with refreshed expiry, and an expired-entry miss. -/
theorem claim_c9_witness :
    tcSet ({ cap := 4, ttl := 100, entries := [⟨"a", 1, 50⟩] } : TtlCache Nat) "a" 9 5 =
        { cap := 4, ttl := 100, entries := [⟨"a", 9, 105⟩] } ∧
    (tcGet ({ cap := 4, ttl := 100, entries := [⟨"a", 1, 50⟩] } : TtlCache Nat) "a" 60).1 =
        none := by
  constructor
  · have h := claim_c9.1 Nat { cap := 4, ttl := 100, entries := [⟨"a", 1, 50⟩] } "a" 9 5
      (by decide)
    simpa using h
  · exact claim_c9.2.2 Nat { cap := 4, ttl := 100, entries := [⟨"a", 1, 50⟩] } "a" 60
      ⟨"a", 1, 50⟩ (by decide) (by decide)

/-- Claim C10: on a response cache at exactly its capacity, `StoreNegative`
and `StoreMeta` on an absent URL insert a new MRU entry with no eviction, so
the count exceeds the capacity; `Store` (on a new key) and `Resize` are the
operations that enforce the size-at-most-capacity bound. -/
theorem claim_c10 (tp : GoTimeParse) (st : RespCache) (u : String) (h : Headers)
    (b : List Nat) (d now : Int)
    (hfull : st.entries.length = st.cap) (habs : findEntry st u = none) :
    (storeNegative st u d now).entries = ⟨u, [], { negUntil := now + d }⟩ :: st.entries ∧
    (storeNegative st u d now).entries.length = st.cap + 1 ∧
    (storeMeta tp st u h now).entries =
      ⟨u, [], makeMeta tp h st.defTTL now⟩ :: st.entries ∧
    (storeMeta tp st u h now).entries.length = st.cap + 1 ∧
    (store tp st u b h now).entries.length = st.cap ∧
    (∀ n, (rcResize st n).entries.length ≤ n) := by
  refine ⟨?_, ?_, ?_, ?_, ?_, ?_⟩
  · simp [storeNegative, habs]
  · simp [storeNegative, habs, hfull]
  · simp [storeMeta, habs]
  · simp [storeMeta, habs, hfull]
  · have hlen : (({ url := u, body := b, meta := makeMeta tp h st.defTTL now } :
        CachedResponse) :: st.entries).length = st.cap + 1 := by
      simp [hfull]
    simp only [store, habs]
    rw [evictOverCap_len_succ st.cap _ hlen]
    simp [hfull]
  · intro n
    simpa [rcResize] using evictOverCap_length_le n st.entries

/-- Claim C6: expiry derivation from response headers — `no-store`/`no-cache`
anywhere in `Cache-Control` (case-insensitively) gives TTL 0; otherwise a
`max-age=N` directive with `N ≥ 0` gives `N` seconds and beats `Expires`;
otherwise a future `Expires` date gives the remaining interval; in all other
cases (including a past `Expires`) the configured default TTL is used. -/
theorem claim_c6 (tp : GoTimeParse) (h : Headers) (defTTL now : Int) :
    ((strContains (lowerStr h.cacheControl) "no-store" ||
        strContains (lowerStr h.cacheControl) "no-cache") = true →
      expiryFromHeaders tp h defTTL now = 0) ∧
    ((strContains (lowerStr h.cacheControl) "no-store" ||
        strContains (lowerStr h.cacheControl) "no-cache") = false →
      (∀ n, maxAgeScan (splitComma h.cacheControl) = some n →
        expiryFromHeaders tp h defTTL now = n * nsPerSec) ∧
      (maxAgeScan (splitComma h.cacheControl) = none →
        (∀ t, h.expires ≠ "" → tp.httpDate h.expires = some t → 0 < t - now →
          expiryFromHeaders tp h defTTL now = t - now) ∧
        ((h.expires = "" ∨ tp.httpDate h.expires = none ∨
            (∃ t, tp.httpDate h.expires = some t ∧ t - now ≤ 0)) →
          expiryFromHeaders tp h defTTL now = defTTL))) := by
  constructor
  · intro hblk
    have hcc : h.cacheControl ≠ "" := by
      intro hcc0
      rw [hcc0] at hblk
      exact absurd hblk (by decide)
    unfold expiryFromHeaders
    rw [if_pos hcc, if_pos hblk]
  · intro hblk
    constructor
    · intro n hma
      by_cases hcc : h.cacheControl = ""
      · rw [hcc] at hma
        have hnone : maxAgeScan (splitComma "") = none := by decide
        rw [hnone] at hma
        cases hma
      · unfold expiryFromHeaders
        rw [if_pos hcc, if_neg (by simp [hblk]), hma]
    · intro hma
      constructor
      · intro t hne hp hf
        rw [expiry_reduces_to_expires tp h defTTL now hblk hma]
        exact expiryExpiresPart_future tp h defTTL now t hne hp hf
      · intro hcase
        rw [expiry_reduces_to_expires tp h defTTL now hblk hma]
        exact expiryExpiresPart_default tp h defTTL now hcase

/-- Witness for C6: the three TTL regimes at concrete headers. -/
theorem claim_c6_witness :
    expiryFromHeaders tpNone { cacheControl := "No-Store" } 55 0 = 0 ∧
    expiryFromHeaders tpNone { cacheControl := "public, max-age=60" } 55 0 = 60 * nsPerSec ∧
    expiryFromHeaders tpNone {} 55 0 = 55 :=
  ⟨(claim_c6 tpNone { cacheControl := "No-Store" } 55 0).1 (by decide),
    ((claim_c6 tpNone { cacheControl := "public, max-age=60" } 55 0).2 (by decide)).1 60
      (by decide),
    (((claim_c6 tpNone {} 55 0).2 (by decide)).2 (by decide)).2 (Or.inl rfl)⟩

/-- Claim C7: `retryAfter` honors a seconds parse strictly inside `(0, 10s)`,
else an RFC1123 date whose delta from now is strictly inside `(0, 10s)`, and
in every other case (missing header, unparsable, zero, negative, or at least
10 seconds) returns the fallback. -/
theorem claim_c7 (tp : GoTimeParse) (h : Headers) (now fallback : Int) :
    (h.retryAfter = "" → retryAfter tp h now fallback = fallback) ∧
    (∀ s, h.retryAfter ≠ "" →
      tp.durationNs (goTrimSpace h.retryAfter ++ "s") = some s →
      0 < s → s < tenSeconds → retryAfter tp h now fallback = s) ∧
    (∀ t, h.retryAfter ≠ "" →
      (∀ s, tp.durationNs (goTrimSpace h.retryAfter ++ "s") = some s →
        ¬(0 < s ∧ s < tenSeconds)) →
      tp.rfc1123 h.retryAfter = some t → 0 < t - now → t - now < tenSeconds →
      retryAfter tp h now fallback = t - now) ∧
    ((∀ s, tp.durationNs (goTrimSpace h.retryAfter ++ "s") = some s →
        ¬(0 < s ∧ s < tenSeconds)) →
      (∀ t, tp.rfc1123 h.retryAfter = some t → ¬(0 < t - now ∧ t - now < tenSeconds)) →
      retryAfter tp h now fallback = fallback) := by
  refine ⟨?_, ?_, ?_, ?_⟩
  · intro he
    simp [retryAfter, he]
  · intro s hne hd h0 h10
    simp only [retryAfter]
    rw [if_pos hne]
    simp only [hd]
    rw [if_pos ⟨h0, h10⟩]
  · intro t hne hnosec hp h0 h10
    simp only [retryAfter]
    rw [if_pos hne]
    cases hd : tp.durationNs (goTrimSpace h.retryAfter ++ "s") with
    | none => simp [hp, h0, h10]
    | some s => simp [hp, hnosec s hd, h0, h10]
  · intro hnosec hnodate
    by_cases hne : h.retryAfter = ""
    · simp [retryAfter, hne]
    · simp only [retryAfter]
      rw [if_pos hne]
      cases hd : tp.durationNs (goTrimSpace h.retryAfter ++ "s") with
      | none =>
        cases hp : tp.rfc1123 h.retryAfter with
        | none => rfl
        | some t =>
          show (if 0 < t - now ∧ t - now < tenSeconds then t - now else fallback) = fallback
          exact if_neg (hnodate t hp)
      | some s =>
        cases hp : tp.rfc1123 h.retryAfter with
        | none =>
          show (if 0 < s ∧ s < tenSeconds then s else fallback) = fallback
          exact if_neg (hnosec s hd)
        | some t =>
          show (if 0 < s ∧ s < tenSeconds then s
            else if 0 < t - now ∧ t - now < tenSeconds then t - now else fallback) = fallback
          rw [if_neg (hnosec s hd), if_neg (hnodate t hp)]

/-- Witness for C7: a seconds value inside the window is honored; an
unparsable value falls back. -/
theorem claim_c7_witness :
    retryAfter ⟨fun _ => none, fun _ => none,
        fun s => if s == "3s" then some (3 * nsPerSec) else none⟩
      { retryAfter := "3" } 0 999 = 3 * nsPerSec ∧
    retryAfter tpNone { retryAfter := "zzz" } 0 999 = 999 :=
  ⟨(claim_c7 ⟨fun _ => none, fun _ => none,
        fun s => if s == "3s" then some (3 * nsPerSec) else none⟩
      { retryAfter := "3" } 0 999).2.1 (3 * nsPerSec) (by decide) (by decide) (by decide)
      (by decide),
    (claim_c7 tpNone { retryAfter := "zzz" } 0 999).2.2.2
      (fun s hs => by simp [tpNone] at hs) (fun t ht => by simp [tpNone] at ht)⟩

/-- Counterexample for C3 as stated: `mergeMeta` does NOT clear negative-until
— it copies it from the previous metadata — and `StoreMeta` on an existing
negative entry therefore keeps the negative window.  (The clearing the claim
describes happens only in `UpdateFreshness`, as a separate assignment after
the merge.) -/
theorem claim_c3_counterexample :
    (mergeMeta tpNone { negUntil := 7 } {} 100 0).negUntil = 7 ∧
    ¬(mergeMeta tpNone { negUntil := 7 } {} 100 0).negUntil = 0 ∧
    (findEntry
        (storeMeta tpNone
          { cap := 4, entries := [⟨"u", [], { negUntil := 7 }⟩], defTTL := 100 } "u" {} 0)
        "u").map (fun e => e.meta.negUntil) = some 7 := by
  refine ⟨by decide, by decide, by decide⟩

/-- Claim C3, amended: the merge overwrites the stored ETag exactly when the
new header value is non-empty, overwrites Last-Modified exactly when the new
header value is non-empty and parses, recomputes positive-expiry from the new
headers, and PRESERVES negative-until; `UpdateFreshness` additionally clears
negative-until after the merge, while `StoreMeta` on an existing entry leaves
the merged (preserved) value in place. -/
theorem claim_c3_amended (tp : GoTimeParse) (prev : CachedMeta) (h : Headers)
    (defTTL now : Int) :
    (mergeMeta tp prev h defTTL now).negUntil = prev.negUntil ∧
    (mergeMeta tp prev h defTTL now).etag = (if h.etag ≠ "" then h.etag else prev.etag) ∧
    (h.lastModified = "" →
      (mergeMeta tp prev h defTTL now).lastModified = prev.lastModified) ∧
    (∀ t, h.lastModified ≠ "" → tp.httpDate h.lastModified = some t →
      (mergeMeta tp prev h defTTL now).lastModified = t) ∧
    (h.lastModified ≠ "" → tp.httpDate h.lastModified = none →
      (mergeMeta tp prev h defTTL now).lastModified = prev.lastModified) ∧
    (mergeMeta tp prev h defTTL now).expiresAt =
      now + expiryFromHeaders tp h defTTL now ∧
    (∀ (st : RespCache) (u : String) (e : CachedResponse), findEntry st u = some e →
      updateFreshness tp st u h now =
        { st with entries :=
            { e with meta := { mergeMeta tp e.meta h st.defTTL now with negUntil := 0 } } ::
              removeFirstBy (fun x => x.url == u) st.entries }) ∧
    (∀ (st : RespCache) (u : String) (e : CachedResponse), findEntry st u = some e →
      storeMeta tp st u h now =
        { st with entries :=
            { e with meta := mergeMeta tp e.meta h st.defTTL now } ::
              removeFirstBy (fun x => x.url == u) st.entries }) := by
  refine ⟨rfl, rfl, ?_, ?_, ?_, rfl, ?_, ?_⟩
  · intro hlm
    simp [mergeMeta, hlm]
  · intro t hlm hp
    simp [mergeMeta, hlm, hp]
  · intro hlm hp
    simp [mergeMeta, hlm, hp]
  · intro st u e he
    simp [updateFreshness, he]
  · intro st u e he
    simp [storeMeta, he]

/-- Witness for C3's amended statement at concrete inputs: a merge that
overwrites the ETag, keeps negative-until, and an `UpdateFreshness` that
clears it. -/
theorem claim_c3_witness :
    (mergeMeta tpNone { negUntil := 7 } { etag := "x" } 100 0).negUntil = 7 ∧
    (mergeMeta tpNone { negUntil := 7 } { etag := "x" } 100 0).etag = "x" ∧
    updateFreshness tpNone
        { cap := 4, entries := [⟨"u", [], { negUntil := 7 }⟩], defTTL := 100 } "u"
        { etag := "x" } 0 =
      { cap := 4, entries := [⟨"u", [], { etag := "x", expiresAt := 100 }⟩], defTTL := 100 } := by
  have h := claim_c3_amended tpNone ({ negUntil := 7 } : CachedMeta) { etag := "x" } 100 0
  refine ⟨h.1, ?_, ?_⟩
  · rw [h.2.1]
    decide
  · have h7 := h.2.2.2.2.2.2.1
      { cap := 4, entries := [⟨"u", [], { negUntil := 7 }⟩], defTTL := 100 } "u"
      ⟨"u", [], { negUntil := 7 }⟩ (by decide)
    rw [h7]
    decide

/-- Counterexample for C2 as stated: a non-nil EMPTY map is not rejected with
the nil-object error; `objectClassName` reads as `""`, which falls to the
default branch and yields the unknown-class error carrying the raw (empty)
name. -/
theorem claim_c2_counterexample :
    ParseObject (fun _ _ => false) (some []) = .errUnknown "" ∧
    ParseObject (fun _ _ => false) (some []) ≠ .errNil := by
  refine ⟨by decide, by decide⟩

/-- Claim C2, amended: `ParseObject` rejects only a nil map with the
`NilRdapObject` error; for any non-nil map (the empty map included) it
dispatches case-insensitively on `objectClassName` over the five canonical
names, and any other class name — including the empty string read from a
missing or non-string member — yields the unknown-class error carrying the
raw name. -/
theorem claim_c2_amended (decFail : ObjClass → JsonMap → Bool) (mm : JsonMap) :
    ParseObject decFail none = .errNil ∧
    (classOf (lowerStr (ocnOf mm)) = none →
      ParseObject decFail (some mm) = .errUnknown (ocnOf mm)) ∧
    (∀ cls, classOf (lowerStr (ocnOf mm)) = some cls →
      ParseObject decFail (some mm) =
        (if decFail cls mm then .errDecode cls else .ok cls (ocnOf mm))) := by
  refine ⟨rfl, ?_, ?_⟩
  · intro hnone
    simp [ParseObject, hnone]
  · intro cls hcls
    have hcanon : canonicalName cls = lowerStr (ocnOf mm) := classOf_canonical _ _ hcls
    simp only [ParseObject, hcls]
    by_cases hdf : decFail cls mm
    · simp [hdf]
    · simp [hdf, hcanon.symm]

/-- Witness for C2's amended statement: nil map, an unknown class, and a
mixed-case `domain` dispatch. -/
theorem claim_c2_witness :
    ParseObject (fun _ _ => false) none = .errNil ∧
    ParseObject (fun _ _ => false) (some [("objectClassName", .str "widget")]) =
      .errUnknown "widget" ∧
    ParseObject (fun _ _ => false) (some [("objectClassName", .str "DoMaIn")]) =
      .ok .domain "DoMaIn" := by
  refine ⟨(claim_c2_amended (fun _ _ => false) []).1, ?_, ?_⟩
  · have h := (claim_c2_amended (fun _ _ => false) [("objectClassName", .str "widget")]).2.1
      (by decide)
    rw [h]
    decide
  · have h := (claim_c2_amended (fun _ _ => false) [("objectClassName", .str "DoMaIn")]).2.2
      .domain (by decide)
    rw [h]
    decide

/-- Counterexample for C1 as stated: the unconditional 304 retry DOES
increment the attempt counter (Go's `continue` runs the loop post-statement
`attempt++`), so it consumes retry budget.  With `maxRetries = 1` and script
`[304, 503, 503]`, the unconditional retry goes out as attempt 2 with
validators off, and the following 503 immediately exhausts the budget: only
two requests are issued and the trace is `[(1, true), (2, false)]`, not the
`[(1, true), (1, false)]` the claim's "without incrementing the attempt
counter" would give (which would also allow a third request). -/
theorem claim_c1_counterexample :
    getJSON { maxRetries := 1, decOK := fun _ => false, tp := tpNone, now := 0 } "u"
        { cap := 512, entries := [], defTTL := 600 * nsPerSec }
        [.resp 304 {} [], .resp 503 {} [], .resp 503 {} []] =
      (.errStatus 503, { cap := 512, entries := [], defTTL := 600 * nsPerSec },
        [(1, true), (2, false)]) ∧
    (getJSON { maxRetries := 1, decOK := fun _ => false, tp := tpNone, now := 0 } "u"
        { cap := 512, entries := [], defTTL := 600 * nsPerSec }
        [.resp 304 {} [], .resp 503 {} [], .resp 503 {} []]).2.2 ≠
      [(1, true), (1, false)] := by
  refine ⟨by decide, by decide⟩

/-- Claim C1, amended: when a 304 arrives and the response cache holds no body
for the URL, the engine retries once with validators disabled — and the
`continue` increments the attempt counter, so the unconditional retry consumes
one unit of retry budget (the retry is issued as attempt 2 with
`useValidators = false`); if a 304 then recurs, `getJSON` fails with the
"304 but no cached body" error. -/
theorem claim_c1_amended (cfg : FetchCfg) (u : String) (st : RespCache)
    (hd1 hd2 : Headers) (b1 b2 : List Nat) (rest : List HEvent)
    (hnb : freshBody st u = []) :
    (∀ res st' tr, getJSONLoop cfg u st 2 false true rest = (res, st', tr) →
      getJSON cfg u st (.resp 304 hd1 b1 :: rest) = (res, st', (1, true) :: tr)) ∧
    getJSON cfg u st (.resp 304 hd1 b1 :: .resp 304 hd2 b2 :: rest) =
      (.err304NoBody, st, [(1, true), (2, false)]) := by
  have hg := rcGet_of_freshBody_empty st u cfg.now hnb
  constructor
  · intro res st' tr hloop
    unfold getJSON
    rw [hg]
    simp [getJSONLoop, hnb, hloop]
  · unfold getJSON
    rw [hg]
    simp [getJSONLoop, hnb]

/-- Witness for C1's amended statement at a concrete empty cache: the single
free-standing 304 hands over to attempt 2 without validators, and a second
304 produces the terminal error. -/
theorem claim_c1_witness :
    getJSON { maxRetries := 2, decOK := fun _ => false, tp := tpNone, now := 0 } "u"
        { cap := 512, entries := [], defTTL := 600 * nsPerSec }
        [.resp 304 {} []] =
      (.scriptEnd, { cap := 512, entries := [], defTTL := 600 * nsPerSec }, [(1, true)]) ∧
    getJSON { maxRetries := 2, decOK := fun _ => false, tp := tpNone, now := 0 } "u"
        { cap := 512, entries := [], defTTL := 600 * nsPerSec }
        [.resp 304 {} [], .resp 304 {} []] =
      (.err304NoBody, { cap := 512, entries := [], defTTL := 600 * nsPerSec },
        [(1, true), (2, false)]) := by
  constructor
  · exact (claim_c1_amended { maxRetries := 2, decOK := fun _ => false, tp := tpNone, now := 0 }
      "u" { cap := 512, entries := [], defTTL := 600 * nsPerSec } {} {} [] [] [] rfl).1
      .scriptEnd _ [] rfl
  · exact (claim_c1_amended { maxRetries := 2, decOK := fun _ => false, tp := tpNone, now := 0 }
      "u" { cap := 512, entries := [], defTTL := 600 * nsPerSec } {} {} [] [] [] rfl).2

/-- Claim C8: a 404 response makes `getJSON` store a 5-minute negative entry
for the URL and fail with the HTTP status error; afterwards a response-cache
`Get` on that URL misses at EVERY later instant — inside the negative window
and also after it elapses — because the negative entry stored for a
previously-absent URL carries no body. -/
theorem claim_c8 (cfg : FetchCfg) (st : RespCache) (u : String) (hdr : Headers)
    (b : List Nat) (hmiss : (rcGet st u cfg.now).1 = none) :
    getJSON cfg u st [.resp 404 hdr b] =
      (.errStatus 404, storeNegative st u (300 * nsPerSec) cfg.now, [(1, true)]) ∧
    (∀ d now t, findEntry st u = none →
      (rcGet (storeNegative st u d now) u t).1 = none) := by
  constructor
  · have hg := rcGet_miss_eq st u cfg.now hmiss
    unfold getJSON
    rw [hg]
    simp [getJSONLoop, isRetryStatus]
  · intro d now t habs
    simp only [storeNegative, habs]
    unfold rcGet findEntry
    rw [find?_cons_eq_ite]
    simp only [beq_self_eq_true, if_pos]
    split_ifs with hneg hfresh
    · rfl
    · exact absurd hfresh.2 (by simp)
    · rfl

/-- Witness for C8 at a concrete empty cache: the 404 run and two probes of
the negative entry, one inside and one past the 5-minute window. -/
theorem claim_c8_witness :
    getJSON { maxRetries := 2, decOK := fun _ => false, tp := tpNone, now := 0 } "u"
        { cap := 512, entries := [], defTTL := 600 * nsPerSec } [.resp 404 {} [72]] =
      (.errStatus 404,
        storeNegative { cap := 512, entries := [], defTTL := 600 * nsPerSec } "u"
          (300 * nsPerSec) 0, [(1, true)]) ∧
    (rcGet (storeNegative { cap := 512, entries := [], defTTL := 600 * nsPerSec } "u"
        (300 * nsPerSec) 0) "u" (100 * nsPerSec)).1 = none ∧
    (rcGet (storeNegative { cap := 512, entries := [], defTTL := 600 * nsPerSec } "u"
        (300 * nsPerSec) 0) "u" (900 * nsPerSec)).1 = none := by
  have h := claim_c8 { maxRetries := 2, decOK := fun _ => false, tp := tpNone, now := 0 }
    { cap := 512, entries := [], defTTL := 600 * nsPerSec } "u" {} [72] (by decide)
  exact ⟨h.1, h.2 (300 * nsPerSec) 0 (100 * nsPerSec) (by decide),
    h.2 (300 * nsPerSec) 0 (900 * nsPerSec) (by decide)⟩

/-- Witness for C10 at a full one-entry cache and an absent URL. -/
theorem claim_c10_witness :
    (storeNegative { cap := 1, entries := [⟨"v", [1], {}⟩], defTTL := 5 } "u" 60 0).entries =
        [⟨"u", [], { negUntil := 60 }⟩, ⟨"v", [1], {}⟩] ∧
    (store tpNone { cap := 1, entries := [⟨"v", [1], {}⟩], defTTL := 5 } "u" [2] {} 0).entries.length = 1 := by
  have h := claim_c10 tpNone { cap := 1, entries := [⟨"v", [1], {}⟩], defTTL := 5 } "u" {} [2]
    60 0 (by decide) (by decide)
  exact ⟨by simpa using h.1, by simpa using h.2.2.2.2.1⟩

/-- Counterexample for C4 as stated: for a CIDR input the resolver does NOT
use the network address — `netip.ParsePrefix` keeps the address as written
and `p.Addr()` returns it unmasked.  For input `10.1.2.3/8` against services
`[10.0.0.0/8 -> A]`, `[10.1.0.0/16 -> B]`, the network address `10.0.0.0`
would select A and cache under `ip:10.0.0.0`; the code queries with
`10.1.2.3`, returns B, and caches under `ip:10.1.2.3`. -/
theorem claim_c4_counterexample :
    (resolveBaseFromBootstrapIP exAddrStr exTldCache (.cidr ⟨⟨false, 0x0A010203⟩, 8⟩)
        "https://data.iana.org/rdap/ipv4.json" exIpFetch 0).1 = "B" ∧
    ¬((resolveBaseFromBootstrapIP exAddrStr exTldCache (.cidr ⟨⟨false, 0x0A010203⟩, 8⟩)
        "https://data.iana.org/rdap/ipv4.json" exIpFetch 0).1 = "A") ∧
    (tcGet (resolveBaseFromBootstrapIP exAddrStr exTldCache (.cidr ⟨⟨false, 0x0A010203⟩, 8⟩)
        "https://data.iana.org/rdap/ipv4.json" exIpFetch 0).2 "ip:10.1.2.3" 0).1 = some "B" ∧
    (tcGet (resolveBaseFromBootstrapIP exAddrStr exTldCache (.cidr ⟨⟨false, 0x0A010203⟩, 8⟩)
        "https://data.iana.org/rdap/ipv4.json" exIpFetch 0).2 "ip:10.0.0.0" 0).1 = none := by
  refine ⟨by decide, by decide, by decide, by decide⟩

/-- Claim C4, amended: the resolver queries with the parsed address — for a
plain address that address, for a CIDR the prefix's address exactly as
written (host bits preserved, not the network address).  On a key-cache miss
with a successful fetch, among all service entries whose CIDR keys
family-match and contain that address, it returns the first URL (trailing
slashes stripped) of the first entry attaining the longest prefix length, and
caches the winning base under `ip:<addr>` for that parsed address. -/
theorem claim_c4_amended (addrStr : Addr → String) (cache : TtlCache String)
    (input : IpInput) (ipURL : String) (fetch : String → Option (List Svc))
    (now : Int) (svcs : List Svc)
    (hmiss : (tcGet cache ("ip:" ++ addrStr (queryAddr input)) now).1 = none)
    (hfetch : fetch (selectIpFile ipURL (queryAddr input).is6) = some svcs)
    (hne : allMatches (queryAddr input) svcs ≠ [])
    (hnb : bestMatchBase (queryAddr input) svcs ≠ "") :
    resolveBaseFromBootstrapIP addrStr cache input ipURL fetch now =
      (bestMatchBase (queryAddr input) svcs,
        tcSet (tcGet cache ("ip:" ++ addrStr (queryAddr input)) now).2
          ("ip:" ++ addrStr (queryAddr input)) (bestMatchBase (queryAddr input) svcs) now) := by
  rcases hg : tcGet cache ("ip:" ++ addrStr (queryAddr input)) now with ⟨r, c'⟩
  rw [hg] at hmiss
  simp only at hmiss
  subst hmiss
  have hM := listMaxI_attained (allMatches (queryAddr input) svcs) hne
  obtain ⟨y, hymem, hyval⟩ := hM
  have hfindSome : ((allMatches (queryAddr input) svcs).find?
      (fun x => (x.1 : Int) == listMaxI (allMatches (queryAddr input) svcs))).isSome := by
    rw [List.find?_isSome]
    exact ⟨y, hymem, by simp [hyval]⟩
  obtain ⟨y', hy'⟩ := Option.isSome_iff_exists.mp hfindSome
  have hbest : bestMatchBase (queryAddr input) svcs = y'.2 := by
    unfold bestMatchBase
    rw [hy']
    rfl
  have hlt : (-1 : Int) < listMaxI (allMatches (queryAddr input) svcs) := by
    cases hM0 : allMatches (queryAddr input) svcs with
    | nil => exact absurd hM0 hne
    | cons z zs =>
      have hz := listMaxI_nonneg z zs
      omega
  have hfsm := (fsm_spec (allMatches (queryAddr input) svcs) (-1) "").2 hlt y' hy'
  simp only [resolveBaseFromBootstrapIP, hg, hfetch, scanServices_eq_fsm, hfsm]
  rw [if_pos (show (listMaxI (allMatches (queryAddr input) svcs), y'.2).2 ≠ "" from
    hbest ▸ hnb)]
  rw [hbest]

/-- Witness for C4's amended statement on the spec's own example: looking up
the plain address `10.1.2.3` against `[10.0.0.0/8 -> A]`, `[10.1.0.0/16 -> B]`
returns B and caches it under `ip:10.1.2.3`. -/
theorem claim_c4_witness :
    (resolveBaseFromBootstrapIP exAddrStr exTldCache (.addr ⟨false, 0x0A010203⟩)
        "https://data.iana.org/rdap/ipv4.json" exIpFetch 0).1 = "B" ∧
    (tcGet (resolveBaseFromBootstrapIP exAddrStr exTldCache (.addr ⟨false, 0x0A010203⟩)
        "https://data.iana.org/rdap/ipv4.json" exIpFetch 0).2 "ip:10.1.2.3" 0).1 =
      some "B" := by
  have h := claim_c4_amended exAddrStr exTldCache (.addr ⟨false, 0x0A010203⟩)
    "https://data.iana.org/rdap/ipv4.json" exIpFetch 0 exIpServices
    (by decide) (by decide) (by decide) (by decide)
  rw [h]
  refine ⟨by decide, by decide⟩

end Rdap
